import Mathlib

/-!
Verification development for the taut runtime-patching engine.

Shallow embedding of the core components of the source tree:

* `Taut.Px`  — the interception proxy of `src/core/main/main.cjs`
  (`wrap`, `isProxied`, `unproxy`, the `get`/`has`/`set`/`apply`/`construct`
  traps and the redirect table).
* `Taut.Wp`  — the webpack/React utilities of `src/core/renderer/webpack.tsx`
  (`findExport`, `findByProps`, `findComponent`, the `React.createElement`
  proxy, `patchComponent`, `unpatchComponent`).
* `Taut.Pl`  — the plugin lifecycle of `src/core/renderer/client.ts`
  (`PluginManager.loadPlugin`, `PluginManager.updatePluginConfig`) and the
  discovery/`start-plugins` pipeline of `src/core/main/main.cjs`.
* `Taut.Cfg` — `deepEqual` and the config-change diffing (`watchConfig`)
  of `src/core/main/main.cjs`.

JS recursion through the object graph is modelled with an explicit `fuel`
parameter so that every definition is structurally recursive and hence
computable by the kernel; a fuel of `n + 1` is always sufficient for the
object graphs appearing in the statements below, and exhausting the fuel
returns an inert default that no theorem relies on.
-/

set_option linter.unnecessarySimpa false

namespace Taut

namespace Px

/-- A JavaScript value: `undef` covers `undefined`/`null` (not an object and
not a function, hence unwrappable), `prim` covers the remaining primitives,
and `ref` is a reference to an object or function on the heap.
Reference equality (JS `===` on objects) is equality of heap ids. -/
inductive V where
  | undef
  | prim (n : Int)
  | ref (id : Nat)
deriving DecidableEq, Repr

/-- A property descriptor (data properties only; the source never installs
accessors on the objects it wraps). -/
structure Desc where
  value : V
  writable : Bool
  configurable : Bool
deriving DecidableEq, Repr

/-- A property key: an ordinary string key, or the module-private
`PROXIED = Symbol('taut:proxied')` marker.  No code outside `wrap` can ever
obtain the symbol, so no plain object in a run of the program owns it. -/
inductive K where
  | s (name : String)
  | proxied
deriving DecidableEq, Repr

/-- A heap object: either an ordinary object/function (`funId` names its
behaviour in the call/construct tables when it is callable), or a proxy
produced by `wrap`, remembering its target and its access path `log`. -/
inductive Obj where
  | plain (props : List (K × Desc)) (funId : Option Nat)
  | prox (target : Nat) (path : String)
deriving DecidableEq, Repr

/-- The heap: object `ref id` lives at index `id`; `new Proxy` allocates at
the end. -/
structure Heap where
  objs : List Obj
deriving DecidableEq, Repr

def Heap.geto (h : Heap) (id : Nat) : Option Obj := h.objs.get? id

/-- Allocation of a fresh object (JS `new Proxy(...)`): returns the new
reference and the extended heap. -/
def Heap.alloc (h : Heap) (o : Obj) : V × Heap :=
  (V.ref h.objs.length, ⟨h.objs ++ [o]⟩)

def Heap.seto (h : Heap) (id : Nat) (o : Obj) : Heap := ⟨h.objs.set id o⟩

/-- Own-property lookup on an ordinary object. -/
def propsFind (props : List (K × Desc)) (k : K) : Option Desc :=
  (props.find? (fun e => e.1 == k)).map (fun e => e.2)

/-- `prop(p)` from the source: a property key as a path fragment; symbols are
printed with `toString()`. -/
def keyStr : K → String
  | .s name => name
  | .proxied => "Symbol(taut:proxied)"

/-- `wrap(obj, log)` from `main.cjs`: a non-object is returned unchanged;
an object or function is wrapped in a **fresh** `Proxy` carrying the access
path `log`.  Note that the source performs no already-wrapped check here:
every call on a `ref` allocates a new proxy, even when the target is itself
a proxy. -/
def wrap (h : Heap) (v : V) (log : String) : V × Heap :=
  match v with
  | .ref id => h.alloc (.prox id log)
  | x => (x, h)

/-- `Reflect.has` / the `in` operator, routed through the `has` trap when the
object is one of our proxies: the trap reports `true` for the `PROXIED`
marker and otherwise forwards to the target.  Prototype chains are not
modelled (no object in the model has a prototype). -/
def jsHas : Nat → Heap → Nat → K → Bool
  | 0, _, _, _ => false
  | fuel + 1, h, id, k =>
    match h.geto id with
    | some (.plain props _) => (propsFind props k).isSome
    | some (.prox t _) => if k = K.proxied then true else jsHas fuel h t k
    | none => false

/-- `Reflect.getOwnPropertyDescriptor`: a proxy without a
`getOwnPropertyDescriptor` trap forwards to its target. -/
def ownDesc : Nat → Heap → Nat → K → Option Desc
  | 0, _, _, _ => none
  | fuel + 1, h, id, k =>
    match h.geto id with
    | some (.plain props _) => propsFind props k
    | some (.prox t _) => ownDesc fuel h t k
    | none => none

/-- `Reflect.get`, routed through the `get` trap for proxies (from the
source): for the `PROXIED` marker the trap returns the raw target; otherwise
it reads the value from the target, and returns it **unwrapped** when the own
descriptor is non-configurable and non-writable, and freshly wrapped at the
extended path `log + "." + prop(p)` otherwise.  The receiver argument only
matters for accessor properties, which are not modelled. -/
def jsGet : Nat → Heap → Nat → K → V × Heap
  | 0, h, _, _ => (V.undef, h)
  | fuel + 1, h, id, k =>
    match h.geto id with
    | some (.plain props _) =>
      (((propsFind props k).map (fun d => d.value)).getD V.undef, h)
    | some (.prox t log) =>
      if k = K.proxied then (V.ref t, h)
      else
        let r := jsGet fuel h t k
        let frozen :=
          match ownDesc fuel r.2 t k with
          | some d => d.configurable == false && d.writable == false
          | none => false
        if frozen then r else wrap r.2 r.1 (log ++ "." ++ keyStr k)
    | none => (V.undef, h)

/-- `isProxied(val)` from `main.cjs`: `Reflect.has(val, PROXIED)` on an
object/function; the prototype clause of the source is vacuous here since the
model has no prototype chains. -/
def isProxied (fuel : Nat) (h : Heap) (v : V) : Bool :=
  match v with
  | .ref id => jsHas fuel h id K.proxied
  | _ => false

/-- `unproxy(val)` from `main.cjs`: `isProxied(val) ? val[PROXIED] : val`,
the indexing going through the `get` trap. -/
def unproxy (fuel : Nat) (h : Heap) (v : V) : V :=
  match v with
  | .ref id =>
    if isProxied fuel h (V.ref id) then (jsGet fuel h id K.proxied).1
    else V.ref id
  | x => x

/-- `Reflect.set`, routed through the `set` trap for proxies: the trap
forwards `Reflect.set(target, p, newValue, unproxy(receiver))`, so the write
lands on the underlying object; a non-writable own data property rejects the
write (`false`), otherwise the own property is updated or created. -/
def jsSet : Nat → Heap → Nat → K → V → Bool × Heap
  | 0, h, _, _, _ => (false, h)
  | fuel + 1, h, id, k, v =>
    match h.geto id with
    | some (.plain props f) =>
      match propsFind props k with
      | some d =>
        if d.writable then
          (true, h.seto id (.plain
            (props.map (fun e => if e.1 == k then (e.1, { d with value := v }) else e)) f))
        else (false, h)
      | none => (true, h.seto id (.plain (props ++ [(k, ⟨v, true, true⟩)]) f))
    | some (.prox t _) => jsSet fuel h t k v
    | none => (false, h)

/-- Behaviour of a function call: `funTable f this args heap` is the outcome
of invoking the ordinary function whose behaviour id is `f`; `Except.error`
models a thrown exception.  The heap component is the state after the call
(also on a throw). -/
def FunTable := Nat → V → List V → Heap → Heap × Except String V

/-- The redirect table for plain calls (`redirected` in `main.cjs`, restricted
to non-constructor paths): a handler receives the original target, the
normalized (unwrapped) `this`, and the original arguments. -/
def ApplyHandlers := String → Option (V → V → List V → Heap → Heap × Except String V)

/-- The redirect table for `<constructor>` paths: a handler receives the
original constructible and the original arguments (the `newTarget` argument
only matters for prototype wiring, which is not modelled). -/
def CtorHandlers := String → Option (V → List V → Heap → Heap × Except String V)

/-- Behaviour of default construction: `ctorTable f args heap` is the outcome
of `Reflect.construct` on the ordinary constructible with behaviour id `f`. -/
def CtorTable := Nat → List V → Heap → Heap × Except String V

/-- `Reflect.apply`, routed through the `apply` trap for proxies (from the
source): the trap looks the proxy's path up in the redirect table and either
invokes the handler with `(target, unproxy(thisArg), argArray)` or forwards
`Reflect.apply(target, unproxy(thisArg), argArray)`. -/
def jsApply (funTable : FunTable) (applyH : ApplyHandlers) :
    Nat → Heap → Nat → V → List V → Heap × Except String V
  | 0, h, _, _, _ => (h, .error "out of fuel")
  | fuel + 1, h, id, thisArg, args =>
    match h.geto id with
    | some (.plain _ (some f)) => funTable f thisArg args h
    | some (.plain _ none) => (h, .error "TypeError: not a function")
    | some (.prox t log) =>
      match applyH log with
      | some handler => handler (V.ref t) (unproxy fuel h thisArg) args h
      | none => jsApply funTable applyH fuel h t (unproxy fuel h thisArg) args
    | none => (h, .error "TypeError: not a function")

/-- Construction through `new`, routed through the `construct` trap for
proxies (from the source): the trap looks up `log + ".<constructor>"` and
either invokes the handler or forwards `Reflect.construct`; the whole trap
body sits in a `try`/`catch` that logs a failure and falls off the end,
returning `undefined`.  On top of the trap, ECMA-262 §10.5.13 (Proxy
`[[Construct]]`) throws a `TypeError` whenever the trap's result is not an
object — this engine-level step is part of what a caller of `new` observes
and is therefore modelled. -/
def jsConstruct (ctorTable : CtorTable) (ctorH : CtorHandlers) :
    Nat → Heap → Nat → List V → Heap × Except String V
  | 0, h, _, _ => (h, .error "out of fuel")
  | fuel + 1, h, id, args =>
    match h.geto id with
    | some (.plain _ (some f)) => ctorTable f args h
    | some (.plain _ none) => (h, .error "TypeError: not a constructor")
    | some (.prox t log) =>
      let inner : Heap × Except String V :=
        match ctorH (log ++ ".<constructor>") with
        | some handler => handler (V.ref t) args h
        | none => jsConstruct ctorTable ctorH fuel h t args
      -- the `catch` branch of the trap: log and return `undefined`
      let trapOut : Heap × V :=
        match inner with
        | (h2, .ok v) => (h2, v)
        | (h2, .error _) => (h2, V.undef)
      match trapOut.2 with
      | .ref r => (trapOut.1, .ok (.ref r))
      | _ => (trapOut.1, .error "TypeError: proxy [[Construct]] returned non-object")
    | none => (h, .error "TypeError: not a constructor")

/-! ### Helper lemmas for the proxy layer -/

theorem get?_append_last {α : Type} (l : List α) (o : α) :
    (l ++ [o]).get? l.length = some o := by
  induction l with
  | nil => rfl
  | cons x xs ih => simpa using ih

theorem get?_append_lt {α : Type} (l : List α) (o : α) (i : Nat) (hi : i < l.length) :
    (l ++ [o]).get? i = l.get? i := by
  induction l generalizing i with
  | nil => exact absurd hi (by simp)
  | cons x xs ih =>
    cases i with
    | zero => rfl
    | succ n => simpa using ih n (by simpa using hi)

/-- Unwrapping a freshly produced wrapper recovers the wrapped value
(one level): the shared core of the round-trip facts below. -/
theorem unproxy_wrap (m : Nat) (h : Heap) (v : V) (log : String) :
    unproxy (m + 1) (wrap h v log).2 (wrap h v log).1 = v := by
  cases v with
  | undef => rfl
  | prim n => rfl
  | ref id =>
    simp [wrap, Heap.alloc, unproxy, isProxied, jsHas, jsGet, Heap.geto,
      get?_append_last]

/-- Unwrapping the most recently allocated wrapper yields its target. -/
theorem unproxy_last (q : Nat) (l : List Obj) (vid : Nat) (p : String) :
    unproxy (q + 1) (⟨l ++ [.prox vid p]⟩ : Heap) (V.ref l.length) = V.ref vid := by
  simp [unproxy, isProxied, jsHas, jsGet, Heap.geto, get?_append_last]

theorem unproxy_not_proxied (fuel : Nat) (h : Heap) (v : V)
    (hv : isProxied fuel h v = false) : unproxy fuel h v = v := by
  cases v with
  | undef => rfl
  | prim n => rfl
  | ref id => simp [unproxy, hv]

/-- One step of construction through a proxy at an unregistered path: a
successful default construction is forwarded unchanged. -/
theorem jsConstruct_step (ctorTable : CtorTable) (ctorH : CtorHandlers)
    (fuel : Nat) (h h2 : Heap) (pid tid r : Nat) (log : String) (args : List V)
    (hP : h.geto pid = some (.prox tid log))
    (hCtor : ctorH (log ++ ".<constructor>") = none)
    (hOk : jsConstruct ctorTable ctorH fuel h tid args = (h2, .ok (V.ref r))) :
    jsConstruct ctorTable ctorH (fuel + 1) h pid args = (h2, .ok (V.ref r)) := by
  simp [jsConstruct, hP, hCtor, hOk]

/-! ### C2 -/

/-- **C2 (amended).** The round trip holds for every value:
`unproxy(wrap(x, p)) === x`.  But `wrap` is *not* idempotent: the source
performs no already-wrapped check inside `wrap`, so wrapping a wrapper
allocates a second, reference-distinct proxy (which unwraps one level to the
first wrapper). -/
theorem taut_C2_roundtrip_not_idempotent (m : Nat) (h : Heap) (v : V)
    (id : Nat) (log : String) :
    unproxy (m + 1) (wrap h v log).2 (wrap h v log).1 = v
    ∧ (wrap (wrap h (V.ref id) log).2 (wrap h (V.ref id) log).1 log).1
        ≠ (wrap h (V.ref id) log).1
    ∧ unproxy (m + 1) (wrap (wrap h (V.ref id) log).2 (wrap h (V.ref id) log).1 log).2
        (wrap (wrap h (V.ref id) log).2 (wrap h (V.ref id) log).1 log).1
        = (wrap h (V.ref id) log).1 := by
  refine ⟨unproxy_wrap m h v log, ?_, unproxy_wrap m _ _ log⟩
  simp [wrap, Heap.alloc]

/-- Example heap for the C2 counterexample: a single plain object. -/
def c2Heap : Heap := ⟨[.plain [] none]⟩

/-- **C2 counterexample.** `wrap(wrap(x, p), p) === wrap(x, p)` fails: the
second `wrap` allocates a fresh proxy over the first one instead of detecting
the marker and returning it unchanged. -/
theorem taut_C2_cx :
    (wrap (wrap c2Heap (V.ref 0) "<electron>").2
        (wrap c2Heap (V.ref 0) "<electron>").1 "<electron>").1
      ≠ (wrap c2Heap (V.ref 0) "<electron>").1 := by decide

/-! ### C3 -/

/-- Heap for the construction-failure scenario: object `0` is a constructible
whose construction throws, object `1` is its wrapper. -/
def c3Heap : Heap := ⟨[.plain [] (some 0), .prox 0 "<electron>.Boom"]⟩

/-- A constructor behaviour that always throws (e.g. a class whose
constructor raises). -/
def c3Ctor : CtorTable := fun _ _ h => (h, .error "construction failed")

/-- No redirect handlers registered. -/
def c3NoHandlers : CtorHandlers := fun _ => none

/-- **C3 evaluation at the failing input.**  Constructing through the wrapper
when the underlying construction throws: the trap's `catch` swallows the
error and the trap returns `undefined`, whereupon the engine's Proxy
`[[Construct]]` invariant (ECMA-262 §10.5.13) raises a `TypeError` — so the
caller of `new` *does* observe an exception, contradicting the claim (and the
evident intent of the `try`/`catch` in the source). -/
theorem taut_C3_construct_raises :
    jsConstruct c3Ctor c3NoHandlers 2 c3Heap 1 []
      = (c3Heap, .error "TypeError: proxy [[Construct]] returned non-object") := by
  rfl

/-! ### C1 -/

/-- **C1 (amended).**  Transparency at an unregistered path, for non-marker
keys and with an unwrapped `this` (as a direct caller would pass): property
writes, `in` checks and calls through the wrapper are literally identical to
the direct operation on the target; a successful construction is forwarded
identically; a property read yields a value that `unproxy`s to exactly the
value a direct read returns (and the direct read has no heap effect).  The
read is *not* reference-identical in general — see the counterexample. -/
theorem taut_C1_transparent
    (funTable : FunTable) (applyH : ApplyHandlers)
    (ctorTable : CtorTable) (ctorH : CtorHandlers)
    (m q : Nat) (h h2 : Heap) (tid pid r : Nat)
    (props : List (K × Desc)) (f : Option Nat)
    (log name : String) (k : K) (v thisArg : V) (args : List V)
    (hT : h.geto tid = some (.plain props f))
    (hP : h.geto pid = some (.prox tid log))
    (hApply : applyH log = none)
    (hCtor : ctorH (log ++ ".<constructor>") = none)
    (hThis : isProxied (m + 1) h thisArg = false)
    (hW : isProxied (q + 1) h (jsGet (m + 1) h tid (K.s name)).1 = false)
    (hOk : jsConstruct ctorTable ctorH (m + 1) h tid args = (h2, .ok (V.ref r))) :
    jsSet (m + 2) h pid k v = jsSet (m + 1) h tid k v
    ∧ jsHas (m + 2) h pid (K.s name) = jsHas (m + 1) h tid (K.s name)
    ∧ jsApply funTable applyH (m + 2) h pid thisArg args
        = jsApply funTable applyH (m + 1) h tid thisArg args
    ∧ unproxy (q + 1) (jsGet (m + 2) h pid (K.s name)).2
        (jsGet (m + 2) h pid (K.s name)).1
        = (jsGet (m + 1) h tid (K.s name)).1
    ∧ (jsGet (m + 1) h tid (K.s name)).2 = h
    ∧ jsConstruct ctorTable ctorH (m + 2) h pid args = (h2, .ok (V.ref r)) := by
  refine ⟨?_, ?_, ?_, ?_, ?_, ?_⟩
  · simp [jsSet, hP]
  · simp [jsHas, hP]
  · simp [jsApply, hP, hApply, unproxy_not_proxied (m + 1) h thisArg hThis]
  · -- the read through the wrapper
    rcases hpf : propsFind props (K.s name) with _ | d
    · simp [jsGet, hP, hT, ownDesc, hpf, unproxy_wrap q]
    · obtain ⟨w, wr, cf⟩ := d
      have hw2 : isProxied (q + 1) h w = false := by
        simpa [jsGet, hT, hpf] using hW
      cases wr <;> cases cf <;>
        simp [jsGet, hP, hT, ownDesc, hpf, keyStr, unproxy_wrap q,
          unproxy_not_proxied (q + 1) h w hw2]
  · simp [jsGet, hT]
  · exact jsConstruct_step ctorTable ctorH (m + 1) h h2 pid tid r log args hP hCtor hOk

/-- Concrete heap for the C1 witness: a plain callable object with one
ordinary property `"a"`, and its wrapper. -/
def c1wHeap : Heap :=
  ⟨[.plain [(K.s "a", ⟨V.prim 7, true, true⟩)] (some 0), .prox 0 "<electron>"]⟩

def c1wFun : FunTable := fun _ _ _ h => (h, .ok (V.prim 1))

def c1wApplyH : ApplyHandlers := fun _ => none

def c1wCtorH : CtorHandlers := fun _ => none

def c1wCtor : CtorTable := fun _ _ h => (h, .ok (V.ref 0))

/-- Witness for `taut_C1_transparent` at a concrete heap. -/
theorem taut_C1_witness :
    jsSet 2 c1wHeap 1 (K.s "b") (V.prim 5) = jsSet 1 c1wHeap 0 (K.s "b") (V.prim 5)
    ∧ jsHas 2 c1wHeap 1 (K.s "a") = jsHas 1 c1wHeap 0 (K.s "a")
    ∧ jsApply c1wFun c1wApplyH 2 c1wHeap 1 V.undef []
        = jsApply c1wFun c1wApplyH 1 c1wHeap 0 V.undef []
    ∧ unproxy 1 (jsGet 2 c1wHeap 1 (K.s "a")).2 (jsGet 2 c1wHeap 1 (K.s "a")).1
        = (jsGet 1 c1wHeap 0 (K.s "a")).1
    ∧ (jsGet 1 c1wHeap 0 (K.s "a")).2 = c1wHeap
    ∧ jsConstruct c1wCtor c1wCtorH 2 c1wHeap 1 [] = (c1wHeap, .ok (V.ref 0)) :=
  taut_C1_transparent c1wFun c1wApplyH c1wCtor c1wCtorH 0 0 c1wHeap c1wHeap 0 1 0
    [(K.s "a", ⟨V.prim 7, true, true⟩)] (some 0) "<electron>" "a" (K.s "b")
    (V.prim 5) V.undef []
    (by rfl) (by rfl) (by rfl) (by rfl) (by rfl) (by rfl) (by rfl)

/-- Concrete heap for the C1 counterexample: object `0` is a plain object,
object `1` owns the object-valued, configurable and writable property `"a"`
pointing at it, object `2` is the wrapper of object `1`. -/
def c1Heap : Heap :=
  ⟨[.plain [] none,
    .plain [(K.s "a", ⟨V.ref 0, true, true⟩)] none,
    .prox 1 "<electron>"]⟩

/-- **C1 counterexample.**  A property read of an object-valued property
through the wrapper does *not* yield the same result as the direct read: the
trap wraps the value in a fresh proxy, so the two results are
reference-distinct (the spec's "observably identical" fails under `===`). -/
theorem taut_C1_cx :
    (jsGet 2 c1Heap 2 (K.s "a")).1 ≠ (jsGet 1 c1Heap 1 (K.s "a")).1 := by
  decide

/-! ### C10 -/

/-- **C10.**  Wrapper identity is not stable across reads: for an object- or
function-valued own property whose descriptor is not both non-configurable
and non-writable, each read through the wrapper allocates a fresh proxy, so
two successive reads return reference-distinct values (first and third
conjuncts), yet both `unproxy` to the underlying value that a direct read on
the target returns (second, third and fourth conjuncts). -/
theorem taut_C10_fresh_wrapper_per_read
    (m q : Nat) (h : Heap) (tid pid vid : Nat)
    (props : List (K × Desc)) (f : Option Nat)
    (log name : String) (wr cf : Bool)
    (hT : h.geto tid = some (.plain props f))
    (hP : h.geto pid = some (.prox tid log))
    (hprop : propsFind props (K.s name) = some ⟨V.ref vid, wr, cf⟩)
    (hnf : cf = true ∨ wr = true) :
    (jsGet (m + 2) h pid (K.s name)).1
        ≠ (jsGet (m + 2) (jsGet (m + 2) h pid (K.s name)).2 pid (K.s name)).1
    ∧ unproxy (q + 1) (jsGet (m + 2) h pid (K.s name)).2
        (jsGet (m + 2) h pid (K.s name)).1 = V.ref vid
    ∧ unproxy (q + 1) (jsGet (m + 2) (jsGet (m + 2) h pid (K.s name)).2 pid (K.s name)).2
        (jsGet (m + 2) (jsGet (m + 2) h pid (K.s name)).2 pid (K.s name)).1 = V.ref vid
    ∧ (jsGet (m + 1) h tid (K.s name)).1 = V.ref vid := by
  have hplt : pid < h.objs.length := by
    by_contra hc
    push_neg at hc
    rw [Heap.geto, List.get?_eq_none.mpr hc] at hP
    cases hP
  have htlt : tid < h.objs.length := by
    by_contra hc
    push_neg at hc
    rw [Heap.geto, List.get?_eq_none.mpr hc] at hT
    cases hT
  have e1 : jsGet (m + 2) h pid (K.s name)
      = (V.ref h.objs.length, ⟨h.objs ++ [.prox vid (log ++ "." ++ name)]⟩) := by
    rcases hnf with hc | hc <;> subst hc <;>
      simp [jsGet, hP, hT, ownDesc, hprop, wrap, Heap.alloc, keyStr]
  have hg1p : (⟨h.objs ++ [.prox vid (log ++ "." ++ name)]⟩ : Heap).geto pid
      = some (.prox tid log) := by
    rw [Heap.geto]
    show (h.objs ++ [_]).get? pid = _
    rw [get?_append_lt _ _ pid hplt]
    exact hP
  have hg1t : (⟨h.objs ++ [.prox vid (log ++ "." ++ name)]⟩ : Heap).geto tid
      = some (.plain props f) := by
    rw [Heap.geto]
    show (h.objs ++ [_]).get? tid = _
    rw [get?_append_lt _ _ tid htlt]
    exact hT
  have e2 : jsGet (m + 2) (⟨h.objs ++ [.prox vid (log ++ "." ++ name)]⟩ : Heap) pid (K.s name)
      = (V.ref (h.objs.length + 1),
         ⟨(h.objs ++ [.prox vid (log ++ "." ++ name)]) ++ [.prox vid (log ++ "." ++ name)]⟩) := by
    rcases hnf with hc | hc <;> subst hc <;>
      simp [jsGet, hg1p, hg1t, ownDesc, hprop, wrap, Heap.alloc, keyStr]
  refine ⟨?_, ?_, ?_, ?_⟩
  · simp only [e1, e2]
    simp
  · simp only [e1]
    exact unproxy_last q h.objs vid (log ++ "." ++ name)
  · simp only [e1, e2]
    have h0 := unproxy_last q (h.objs ++ [Obj.prox vid (log ++ "." ++ name)]) vid
      (log ++ "." ++ name)
    simpa using h0
  · simp [jsGet, hT, hprop]

/-- Concrete heap for the C10 witness. -/
def c10Heap : Heap :=
  ⟨[.plain [] none,
    .plain [(K.s "a", ⟨V.ref 0, true, true⟩)] none,
    .prox 1 "<electron>"]⟩

/-- Witness for `taut_C10_fresh_wrapper_per_read` at a concrete heap. -/
theorem taut_C10_witness :
    (jsGet 2 c10Heap 2 (K.s "a")).1
        ≠ (jsGet 2 (jsGet 2 c10Heap 2 (K.s "a")).2 2 (K.s "a")).1
    ∧ unproxy 1 (jsGet 2 c10Heap 2 (K.s "a")).2
        (jsGet 2 c10Heap 2 (K.s "a")).1 = V.ref 0
    ∧ unproxy 1 (jsGet 2 (jsGet 2 c10Heap 2 (K.s "a")).2 2 (K.s "a")).2
        (jsGet 2 (jsGet 2 c10Heap 2 (K.s "a")).2 2 (K.s "a")).1 = V.ref 0
    ∧ (jsGet 1 c10Heap 1 (K.s "a")).1 = V.ref 0 :=
  taut_C10_fresh_wrapper_per_read 0 0 c10Heap 1 2 0
    [(K.s "a", ⟨V.ref 0, true, true⟩)] none "<electron>" "a" true true
    (by rfl) (by rfl) (by rfl) (Or.inl rfl)

end Px

/-- Insertion-ordered deduplication (JS `Set` construction + spread),
shared by the export index and the config differ. -/
def firstDedup {α : Type} [DecidableEq α] (l : List α) : List α :=
  l.foldl (fun acc x => if x ∈ acc then acc else acc ++ [x]) []

namespace Wp

/-!
Model of `src/core/renderer/webpack.tsx`.

`RElem` is a webpack export / React element type: a string tag, a function
component (`fn id displayName name` — `id` models JS reference identity,
`displayName` the assignable property, `name` the intrinsic function name),
a `React.memo` wrapper, a `React.forwardRef` wrapper, the module-private
"original element" sentinel object handed to replacers, a plain object with
enumerable string properties, or `null`.
-/

inductive RElem where
  | nullv
  | str (s : String)
  | fn (id : Nat) (displayName : Option String) (nm : Option String)
  | memo (inner : RElem)
  | forwardRef (displayName : Option String) (render : RElem)
  | originalObj (originalType : RElem) (displayName : String)
  | obj (props : List (String × RElem))
deriving Repr

mutual

def RElem.beq : RElem → RElem → Bool
  | .nullv, .nullv => true
  | .str a, .str b => a == b
  | .fn i d n, .fn i2 d2 n2 => i == i2 && d == d2 && n == n2
  | .memo a, .memo b => RElem.beq a b
  | .forwardRef d a, .forwardRef d2 b => d == d2 && RElem.beq a b
  | .originalObj a d, .originalObj b d2 => RElem.beq a b && d == d2
  | .obj ps, .obj qs => RElem.beqProps ps qs
  | _, _ => false

def RElem.beqProps : List (String × RElem) → List (String × RElem) → Bool
  | [], [] => true
  | (k, v) :: xs, (k2, v2) :: ys => k == k2 && RElem.beq v v2 && RElem.beqProps xs ys
  | _, _ => false

end

instance : BEq RElem := ⟨RElem.beq⟩

mutual

theorem RElem.beq_iff : ∀ a b : RElem, RElem.beq a b = true ↔ a = b
  | .nullv, b => by cases b <;> simp [RElem.beq]
  | .str a, b => by cases b <;> simp [RElem.beq]
  | .fn i d n, b => by cases b <;> simp [RElem.beq, and_assoc]
  | .memo a, b => by
      cases b <;> simp [RElem.beq]
      exact RElem.beq_iff a _
  | .forwardRef d a, b => by
      cases b <;> simp [RElem.beq]
      intro _
      exact RElem.beq_iff a _
  | .originalObj a d, b => by
      cases b <;> simp [RElem.beq]
      intro _
      exact RElem.beq_iff a _
  | .obj ps, b => by
      cases b <;> simp [RElem.beq]
      exact RElem.beqProps_iff ps _

theorem RElem.beqProps_iff :
    ∀ xs ys : List (String × RElem), RElem.beqProps xs ys = true ↔ xs = ys
  | [], ys => by cases ys <;> simp [RElem.beqProps]
  | (k, v) :: xs, ys => by
      cases ys with
      | nil => simp [RElem.beqProps]
      | cons y ys =>
        obtain ⟨k2, v2⟩ := y
        simp [RElem.beqProps, RElem.beq_iff v v2, RElem.beqProps_iff xs ys, and_assoc]

end

instance : LawfulBEq RElem where
  eq_of_beq h := (RElem.beq_iff _ _).mp h
  rfl := (RElem.beq_iff _ _).mpr rfl

instance : DecidableEq RElem := fun a b =>
  decidable_of_iff (RElem.beq a b = true) (RElem.beq_iff a b)

/-- JS string truthiness for the `a || b` chains of `getComponentName`:
the empty string is falsy. -/
def truthyStr : Option String → Option String
  | some "" => none
  | o => o

def fnDisplayName : RElem → Option String
  | .fn _ dn _ => dn
  | _ => none

def fnName : RElem → Option String
  | .fn _ _ nm => nm
  | _ => none

/-- `getComponentName` from `webpack.tsx`: unwraps `memo`, reads
`displayName || render?.displayName || render?.name || null` off a
`forwardRef`, `displayName || null` off a function, `null` otherwise. -/
def getComponentName : RElem → Option String
  | .memo inner => getComponentName inner
  | .forwardRef dn render =>
      (truthyStr dn).orElse fun _ =>
        (truthyStr (fnDisplayName render)).orElse fun _ => truthyStr (fnName render)
  | .fn _ dn _ => truthyStr dn
  | _ => none

/-- `getOriginalComponent` from `webpack.tsx`: strips `memo` and
`forwardRef` wrappers. -/
def getOriginalComponent : RElem → RElem
  | .memo inner => getOriginalComponent inner
  | .forwardRef _ render => getOriginalComponent render
  | e => e

/-- `getElementName` from `webpack.tsx`. -/
def getElementName : RElem → String
  | .str s => s
  | e => (getComponentName e).getD "Component"

/-- `isOriginalElementObject` from `webpack.tsx`: only the sentinel objects
created by the `createElement` proxy carry the module-private
`originalElementSymbol`. -/
def isOriginalElementObject : RElem → Bool
  | .originalObj _ _ => true
  | _ => false

/-- Reading `originalType` off a sentinel (identity elsewhere, unused
elsewhere). -/
def originalTypeOf : RElem → RElem
  | .originalObj origTy _ => origTy
  | e => e

/-- The `elementReplacements` map: component identity → ordered replacer
list, in insertion order (JS `Map`).  Replacer functions are identified by
ids into an environment `REnv` — ids model JS function reference identity
(`indexOf` removal compares by reference). -/
abbrev Tbl := List (RElem × List Nat)

abbrev REnv := Nat → RElem → RElem

def tblGet (t : Tbl) (k : RElem) : Option (List Nat) :=
  (t.find? (fun e => e.1 == k)).map (fun e => e.2)

/-- `patchComponent` from `webpack.tsx` (table part): push the replacer onto
the existing list, or create a fresh entry.  The `dirtyMemoizationCache`
walk perturbs the live fiber tree and is not modelled. -/
def patchComponent (t : Tbl) (original : RElem) (r : Nat) : Tbl :=
  match tblGet t original with
  | some _ => t.map (fun e => if e.1 == original then (e.1, e.2 ++ [r]) else e)
  | none => t ++ [(original, [r])]

/-- `indexOf` + `splice(index, 1)`: remove the first occurrence. -/
def removeFirst : List Nat → Nat → List Nat
  | [], _ => []
  | x :: xs, r => if x = r then xs else x :: removeFirst xs r

/-- One entry of the `unpatchComponent` loop: entries not containing the
replacer are untouched; an entry whose list empties is deleted. -/
def unpatchEntry (r : Nat) (e : RElem × List Nat) : Option (RElem × List Nat) :=
  if e.2.contains r then
    let l := removeFirst e.2 r
    if l.isEmpty then none else some (e.1, l)
  else some e

/-- `unpatchComponent` from `webpack.tsx`: removes the replacer from every
entry in which it occurs, deleting entries that become empty. -/
def unpatchComponent (t : Tbl) (r : Nat) : Tbl :=
  t.filterMap (unpatchEntry r)

/-- One step of the replacer `reduce` in the `createElement` proxy: apply the
replacer to the current type; if the result is a function without its own
`displayName`, assign `Patched(<name of current type>)`. -/
def stepReplacer (renv : REnv) (cur : RElem) (r : Nat) : RElem :=
  match renv r cur with
  | .fn id none nm => .fn id (some ("Patched(" ++ getElementName cur ++ ")")) nm
  | x => x

/-- The type actually instantiated by the wrapped `React.createElement` for a
creation call with element type `ty` and an (already extracted and deleted)
`__original` props flag: a sentinel instantiates its `originalType`
unconditionally; with the `__original` marker the chain is skipped; otherwise
a non-empty replacer list for the unwrapped component identity is folded over
the sentinel wrapping the true original. -/
def appliedType (renv : REnv) (t : Tbl) (origFlag : Bool) (ty : RElem) : RElem :=
  if isOriginalElementObject ty then originalTypeOf ty
  else if origFlag then ty
  else
    match tblGet t (getOriginalComponent ty) with
    | some rs =>
      if rs.isEmpty then ty
      else rs.foldl (stepReplacer renv) (.originalObj ty (getElementName ty))
    | none => ty

/-! ### The export index (`allExports`, `findExport`, `findByProps`,
`findComponent`) -/

/-- JS truthiness of an export (`.filter((exp) => exp && exp[1])`). -/
def truthyV : RElem → Bool
  | .nullv => false
  | .str s => !(s == "")
  | _ => true

/-- `allExports` from `webpack.tsx`: the module table maps ids to `some`
export or `none` when `__webpack_require__` threw (silently skipped); falsy
exports are filtered out. -/
def allExports (mods : List (String × Option RElem)) : List (String × RElem) :=
  mods.filterMap fun m =>
    match m.2 with
    | some v => if truthyV v then some (m.1, v) else none
    | none => none

/-- The own enumerable string-keyed properties scanned by the
`for key in exp` loop (with its `hasOwnProperty` guard).  String index
properties of primitive-string exports are not modelled. -/
def ownEnumProps : RElem → List (String × RElem)
  | .obj props => props
  | .memo inner => [("type", inner)]
  | .forwardRef dn render =>
      ("render", render) ::
        (match dn with | some s => [("displayName", .str s)] | none => [])
  | .fn _ dn _ => (match dn with | some s => [("displayName", .str s)] | none => [])
  | _ => []

/-- For one export, the values the filter is tried on, in source order: the
export itself first, then its one-level own enumerable properties. -/
def exportCandidates (e : RElem) : List RElem :=
  e :: (ownEnumProps e).map (fun p => p.2)

/-- All filter candidates of a scan, in scan order. -/
def searchCandidates (mods : List (String × Option RElem)) : List RElem :=
  ((allExports mods).map (fun e => e.2)).flatMap exportCandidates

/-- `findExport(filter)` in single-match mode: the first candidate matching
the filter, or `null` — the source contains no throw on a miss. -/
def findExportSingle (mods : List (String × Option RElem))
    (filter : RElem → Bool) : Option RElem :=
  (searchCandidates mods).find? filter

/-- `findExport(filter, true)`: the deduplicated list of all matches. -/
def findExportAll (mods : List (String × Option RElem))
    (filter : RElem → Bool) : List RElem :=
  firstDedup ((searchCandidates mods).filter filter)

/-- The JS `in` operator on an export (own properties; `in` on a primitive
throws, which `findExport`'s catch converts to a non-match). -/
def relemHas (e : RElem) (p : String) : Bool :=
  match e with
  | .obj props => props.any (fun kv => kv.1 == p)
  | .fn _ dn _ => (p == "displayName" && dn.isSome) || p == "name" || p == "length"
  | .memo _ => p == "$$typeof" || p == "type" || p == "compare"
  | .forwardRef dn _ =>
      p == "$$typeof" || p == "render" || (p == "displayName" && dn.isSome)
  | .originalObj _ _ => p == "symbol" || p == "originalType" || p == "displayName"
  | _ => false

/-- `findByProps(props)`: `findExport` with an every-property-present
filter. -/
def findByPropsSingle (mods : List (String × Option RElem))
    (props : List String) : Option RElem :=
  findExportSingle mods (fun exp => props.all (fun p => relemHas exp p))

def findByPropsAll (mods : List (String × Option RElem))
    (props : List String) : List RElem :=
  findExportAll mods (fun exp => props.all (fun p => relemHas exp p))

/-- The filter used by `findComponent`. -/
def componentFilter (name : String) (extra : Option (RElem → Bool))
    (exp : RElem) : Bool :=
  getComponentName exp == some name
    && (match extra with | some f => f exp | none => true)

/-- `findComponent(name)` in single-match mode: throws an explicit
"not found" error on a miss (`Except.error`), otherwise unwraps the match. -/
def findComponentSingle (mods : List (String × Option RElem)) (name : String)
    (extra : Option (RElem → Bool)) : Except String RElem :=
  match findExportSingle mods (componentFilter name extra) with
  | some r => .ok (getOriginalComponent r)
  | none => .error ("[Taut] Could not find component: " ++ name)

/-- `findComponent(name, true)`: all matches, unwrapped; empty on a miss. -/
def findComponentAll (mods : List (String × Option RElem)) (name : String)
    (extra : Option (RElem → Bool)) : List RElem :=
  (findExportAll mods (componentFilter name extra)).map getOriginalComponent

/-! ### Helper lemmas for the patch chain -/

theorem find?_append_none {α : Type} (p : α → Bool) (l1 l2 : List α)
    (h : l1.find? p = none) : (l1 ++ l2).find? p = l2.find? p := by
  induction l1 with
  | nil => rfl
  | cons x xs ih =>
    cases hpx : p x with
    | true =>
      rw [List.find?_cons_of_pos _ hpx] at h
      cases h
    | false =>
      rw [List.find?_cons_of_neg _ (by simp [hpx])] at h
      rw [List.cons_append, List.find?_cons_of_neg _ (by simp [hpx])]
      exact ih h

theorem map_eq_self {α : Type} (l : List α) (f : α → α)
    (h : ∀ a ∈ l, f a = a) : l.map f = l := by
  induction l with
  | nil => rfl
  | cons x xs ih =>
    simp only [List.map_cons, h x (by simp)]
    rw [ih (fun a ha => h a (by simp [ha]))]

theorem tblGet_find (t : Tbl) (C : RElem) :
    tblGet t C = none ↔ t.find? (fun e => e.1 == C) = none := by
  unfold tblGet
  cases t.find? (fun e => e.1 == C) <;> simp

theorem tblGet_none_keys (t : Tbl) (C : RElem) (h : tblGet t C = none) :
    ∀ e ∈ t, (e.1 == C) = false := by
  intro e he
  have hf := (tblGet_find t C).mp h
  have := List.find?_eq_none.mp hf e he
  simpa using this

theorem tblGet_append_fresh (t : Tbl) (C : RElem) (l : List Nat)
    (h : tblGet t C = none) : tblGet (t ++ [(C, l)]) C = some l := by
  unfold tblGet
  rw [find?_append_none _ _ _ ((tblGet_find t C).mp h)]
  simp

theorem patch_fresh (t : Tbl) (C : RElem) (r : Nat) (h : tblGet t C = none) :
    patchComponent t C r = t ++ [(C, [r])] := by
  simp [patchComponent, h]

theorem patch_step (t : Tbl) (C : RElem) (l : List Nat) (r : Nat)
    (h : tblGet t C = none) :
    patchComponent (t ++ [(C, l)]) C r = t ++ [(C, l ++ [r])] := by
  unfold patchComponent
  rw [tblGet_append_fresh t C l h]
  rw [List.map_append]
  rw [map_eq_self t _ (fun e he => by simp [tblGet_none_keys t C h e he])]
  simp

theorem unpatchEntry_key (r : Nat) (e e2 : RElem × List Nat)
    (h : unpatchEntry r e = some e2) : e2.1 = e.1 := by
  unfold unpatchEntry at h
  split at h
  · simp only [] at h
    split at h
    · cases h
    · cases h; rfl
  · cases h; rfl

theorem tblGet_unpatch_fresh (t : Tbl) (C : RElem) (r : Nat)
    (h : tblGet t C = none) : tblGet (unpatchComponent t r) C = none := by
  rw [tblGet_find]
  apply List.find?_eq_none.mpr
  intro e he
  obtain ⟨a, ha, hae⟩ := List.mem_filterMap.mp he
  have hk := unpatchEntry_key r a e hae
  have hne := tblGet_none_keys t C h a ha
  simp [hk, hne]

/-! ### C4 -/

/-- **C4.**  Patch-chain composition and clean removal: with `C` freshly
patched by `r1` then `r2`, element creation for `C` folds the replacers in
registration order over the sentinel wrapping the true original (first
registered innermost); after unpatching `r1`, creation applies `r2` directly
to the sentinel, with no residual stub of `r1`; after also unpatching `r2`,
the map entry for `C` is gone entirely and creation instantiates `C`
itself.  (`stepReplacer renv cur r` is the application of replacer `r` to
the current type, including the `Patched(...)` displayName tagging the
source performs inside the reduce.) -/
theorem taut_C4_patch_chain (renv : REnv) (t : Tbl) (C : RElem) (r1 r2 : Nat)
    (hfresh : tblGet t C = none)
    (hC : getOriginalComponent C = C)
    (horig : isOriginalElementObject C = false) :
    appliedType renv (patchComponent (patchComponent t C r1) C r2) false C
      = stepReplacer renv (stepReplacer renv (.originalObj C (getElementName C)) r1) r2
    ∧ appliedType renv
        (unpatchComponent (patchComponent (patchComponent t C r1) C r2) r1) false C
      = stepReplacer renv (.originalObj C (getElementName C)) r2
    ∧ tblGet (unpatchComponent
        (unpatchComponent (patchComponent (patchComponent t C r1) C r2) r1) r2) C = none
    ∧ appliedType renv (unpatchComponent
        (unpatchComponent (patchComponent (patchComponent t C r1) C r2) r1) r2) false C
      = C := by
  have e1 : patchComponent (patchComponent t C r1) C r2 = t ++ [(C, [r1, r2])] := by
    rw [patch_fresh t C r1 hfresh, patch_step t C [r1] r2 hfresh]
    simp
  have hg2 : tblGet (t ++ [(C, [r1, r2])]) C = some [r1, r2] :=
    tblGet_append_fresh t C [r1, r2] hfresh
  have e2 : unpatchComponent (t ++ [(C, [r1, r2])]) r1
      = unpatchComponent t r1 ++ [(C, [r2])] := by
    unfold unpatchComponent
    rw [List.filterMap_append]
    congr 1
    simp [unpatchEntry, removeFirst]
  have hg3 : tblGet (unpatchComponent t r1 ++ [(C, [r2])]) C = some [r2] :=
    tblGet_append_fresh _ C [r2] (tblGet_unpatch_fresh t C r1 hfresh)
  have e3 : unpatchComponent (unpatchComponent t r1 ++ [(C, [r2])]) r2
      = unpatchComponent (unpatchComponent t r1) r2 := by
    unfold unpatchComponent
    rw [List.filterMap_append]
    simp [unpatchEntry, removeFirst]
  have hg4 : tblGet (unpatchComponent (unpatchComponent t r1) r2) C = none :=
    tblGet_unpatch_fresh _ C r2 (tblGet_unpatch_fresh t C r1 hfresh)
  refine ⟨?_, ?_, ?_, ?_⟩
  · rw [e1]
    simp [appliedType, horig, hC, hg2]
  · rw [e1, e2]
    simp [appliedType, horig, hC, hg3]
  · rw [e1, e2, e3]
    exact hg4
  · rw [e1, e2, e3]
    simp [appliedType, horig, hC, hg4]

/-- Identity replacers for the C4 witness. -/
def c4Renv : REnv := fun _ x => x

/-- A plain function component for the C4 witness. -/
def c4C : RElem := .fn 0 (some "Comp") none

/-- Witness for `taut_C4_patch_chain` at an empty initial table. -/
theorem taut_C4_witness :
    appliedType c4Renv (patchComponent (patchComponent [] c4C 0) c4C 1) false c4C
      = stepReplacer c4Renv (stepReplacer c4Renv (.originalObj c4C (getElementName c4C)) 0) 1
    ∧ appliedType c4Renv
        (unpatchComponent (patchComponent (patchComponent [] c4C 0) c4C 1) 0) false c4C
      = stepReplacer c4Renv (.originalObj c4C (getElementName c4C)) 1
    ∧ tblGet (unpatchComponent
        (unpatchComponent (patchComponent (patchComponent [] c4C 0) c4C 1) 0) 1) c4C = none
    ∧ appliedType c4Renv (unpatchComponent
        (unpatchComponent (patchComponent (patchComponent [] c4C 0) c4C 1) 0) 1) false c4C
      = c4C :=
  taut_C4_patch_chain c4Renv [] c4C 0 1 (by rfl) (by rfl) (by rfl)

/-! ### C5 -/

/-- **C5.**  Non-recursion of the patch chain: a creation call whose props
carried the `__original` marker instantiates the passed type with the chain
bypassed entirely (whatever the replacer table holds), and a creation call
whose type is the sentinel original-element object instantiates the untouched
original type unconditionally — so a replacer rendering the original inside
its own output does not re-enter the chain. -/
theorem taut_C5_bypass (renv : REnv) (t : Tbl) (ty oty : RElem) (dn : String)
    (flag : Bool) (horig : isOriginalElementObject ty = false) :
    appliedType renv t true ty = ty
    ∧ appliedType renv t flag (RElem.originalObj oty dn) = oty := by
  constructor
  · simp [appliedType, horig]
  · simp [appliedType, isOriginalElementObject, originalTypeOf]

/-- A constant replacer environment for the C5 witness. -/
def c5Renv : REnv := fun _ _ => RElem.str "replaced"

/-- Witness for `taut_C5_bypass`: the component *is* patched in the table,
yet both bypasses instantiate the original. -/
theorem taut_C5_witness :
    appliedType c5Renv [(RElem.fn 0 (some "Comp") none, [0])] true
      (RElem.fn 0 (some "Comp") none) = RElem.fn 0 (some "Comp") none
    ∧ appliedType c5Renv [(RElem.fn 0 (some "Comp") none, [0])] false
        (RElem.originalObj (RElem.fn 0 (some "Comp") none) "Comp")
      = RElem.fn 0 (some "Comp") none :=
  taut_C5_bypass c5Renv [(RElem.fn 0 (some "Comp") none, [0])]
    (RElem.fn 0 (some "Comp") none) (RElem.fn 0 (some "Comp") none) "Comp" false
    (by rfl)

/-! ### C8 -/

/-- **C8 (amended).**  Lookup-miss behaviour when no scanned candidate
matches: `findExport` and `findByProps` in single-match mode return `null`
(no "not found" error is raised — the source contains no throw there);
`findComponent` in single-match mode raises the explicit "not found" error;
and all three return an empty collection in all-match mode. -/
theorem taut_C8_lookup_miss (mods : List (String × Option RElem))
    (filter : RElem → Bool) (props : List String) (name : String)
    (hF : ∀ v ∈ searchCandidates mods, filter v = false)
    (hProps : ∀ v ∈ searchCandidates mods,
      props.all (fun p => relemHas v p) = false)
    (hName : ∀ v ∈ searchCandidates mods, getComponentName v ≠ some name) :
    findExportSingle mods filter = none
    ∧ findExportAll mods filter = []
    ∧ findByPropsSingle mods props = none
    ∧ findByPropsAll mods props = []
    ∧ findComponentSingle mods name none
        = .error ("[Taut] Could not find component: " ++ name)
    ∧ findComponentAll mods name none = [] := by
  have hcf : ∀ v ∈ searchCandidates mods, componentFilter name none v = false := by
    intro v hv
    have hne : (getComponentName v == some name) = false := by
      rw [beq_eq_false_iff_ne]
      exact hName v hv
    simp [componentFilter, hne]
  have h1 : findExportSingle mods filter = none :=
    List.find?_eq_none.mpr (fun v hv => by simp [hF v hv])
  have h2 : (searchCandidates mods).filter filter = [] :=
    List.filter_eq_nil_iff.mpr (fun v hv => by simp [hF v hv])
  have h3 : findExportSingle mods (fun exp => props.all (fun p => relemHas exp p))
      = none :=
    List.find?_eq_none.mpr (fun v hv => by simp [hProps v hv])
  have h4 : (searchCandidates mods).filter
      (fun exp => props.all (fun p => relemHas exp p)) = [] :=
    List.filter_eq_nil_iff.mpr (fun v hv => by simp [hProps v hv])
  have h5 : findExportSingle mods (componentFilter name none) = none :=
    List.find?_eq_none.mpr (fun v hv => by simp [hcf v hv])
  have h6 : (searchCandidates mods).filter (componentFilter name none) = [] :=
    List.filter_eq_nil_iff.mpr (fun v hv => by simp [hcf v hv])
  refine ⟨h1, ?_, h3, ?_, ?_, ?_⟩
  · simp [findExportAll, h2, firstDedup]
  · simp [findByPropsAll, findExportAll, h4, firstDedup]
  · simp [findComponentSingle, h5]
  · simp [findComponentAll, findExportAll, h6, firstDedup]

/-- Concrete module table for the C8 witness: one resolvable export (a
component named "Foo") and one id whose resolution fails. -/
def c8Mods : List (String × Option RElem) :=
  [("1", some (.fn 0 (some "Foo") none)), ("2", none)]

/-- Witness for `taut_C8_lookup_miss` on a concrete module table. -/
theorem taut_C8_witness :
    findExportSingle c8Mods (fun _ => false) = none
    ∧ findExportAll c8Mods (fun _ => false) = []
    ∧ findByPropsSingle c8Mods ["zzz"] = none
    ∧ findByPropsAll c8Mods ["zzz"] = []
    ∧ findComponentSingle c8Mods "Missing" none
        = .error ("[Taut] Could not find component: " ++ "Missing")
    ∧ findComponentAll c8Mods "Missing" none = [] :=
  taut_C8_lookup_miss c8Mods (fun _ => false) ["zzz"] "Missing"
    (by decide) (by decide) (by decide)

/-- Concrete module table for the C8 counterexample. -/
def c8CxMods : List (String × Option RElem) := [("1", some (.fn 0 (some "Foo") none))]

/-- **C8 counterexample.**  `findExport` in single-match mode with no match
returns `null` (modelled `none`; the source body of `findExport` contains no
throw statement at all), not the "not found" error the claim asserts for
every search operation. -/
theorem taut_C8_cx : findExportSingle c8CxMods (fun _ => false) = none := by rfl

end Wp

namespace Pl

/-!
Model of the plugin lifecycle: `PluginManager` from
`src/core/renderer/client.ts` and the discovery / `taut:start-plugins`
pipeline from `src/core/main/main.cjs`.
-/

/-- A plugin config as the lifecycle code sees it: only the `enabled` flag is
ever read by `loadPlugin`/`updatePluginConfig` (the rest of the JSON payload
is opaque at this layer). -/
structure PCfg where
  enabled : Bool
deriving DecidableEq, Repr

/-- One entry of `PluginManager.plugins`: the stored class, the current
instance (identified by its allocation number) and the config it was
constructed with. -/
structure Entry where
  classId : Nat
  iid : Nat
  cfg : PCfg
deriving DecidableEq, Repr

/-- JS `Map.get` on the plugins map. -/
def mapGet (m : List (String × Entry)) (k : String) : Option Entry :=
  (m.find? (fun e => e.1 == k)).map (fun e => e.2)

/-- JS `Map.set`: update the first (only) occurrence of the key in place,
else append. -/
def mapSet : List (String × Entry) → String → Entry → List (String × Entry)
  | [], k, v => [(k, v)]
  | e :: rest, k, v => if e.1 == k then (k, v) :: rest else e :: mapSet rest k v

/-- The manager state: the `plugins` map, an allocation counter giving each
constructed instance an identity, and the observation ledger `live` of
instances that have been `start()`ed and not yet `stop()`ed. -/
structure PMState where
  plugins : List (String × Entry)
  nextIid : Nat
  live : List (String × Nat)
deriving DecidableEq, Repr

def initState : PMState := ⟨[], 0, []⟩

/-- `stop()` on an instance: it leaves the live ledger (stopping an already
stopped instance is a no-op; the manager catches exceptions from `stop`). -/
def stopLive (l : List (String × Nat)) (iid : Nat) : List (String × Nat) :=
  l.filter (fun e => e.2 != iid)

/-- `PluginManager.loadPlugin(name, PluginClass, config)` from `client.ts`:
stop the existing instance first when its stored config was enabled
(exceptions caught and logged); then construct the new instance —
`ctorOk = false` models a throwing constructor, which the surrounding
`try` catches with the map left untouched; on success store the record and,
when `config.enabled`, `start()` it — `startOk = false` models a throwing
`start`, caught, leaving the instance constructed but never started. -/
def loadPlugin (s : PMState) (name : String) (classId : Nat) (cfg : PCfg)
    (ctorOk startOk : Bool) : PMState :=
  let s1 : PMState :=
    match mapGet s.plugins name with
    | some e => if e.cfg.enabled then { s with live := stopLive s.live e.iid } else s
    | none => s
  if ctorOk then
    let iid := s1.nextIid
    let s2 : PMState :=
      { s1 with plugins := mapSet s1.plugins name ⟨classId, iid, cfg⟩,
                nextIid := iid + 1 }
    if cfg.enabled && startOk then { s2 with live := s2.live ++ [(name, iid)] }
    else s2
  else s1

/-- `PluginManager.updatePluginConfig(name, newConfig)` from `client.ts`:
warn and return on an unknown name; stop the existing instance when its old
config was enabled (exceptions caught); construct a fresh instance of the
stored class with the new config (this `new` is *not* inside a `try` — a
throw propagates to the caller, leaving the state as after the stop, which
`ctorOk = false` models); store the record; `start()` when the new config is
enabled (exceptions caught). -/
def updatePluginConfig (s : PMState) (name : String) (newCfg : PCfg)
    (ctorOk startOk : Bool) : PMState :=
  match mapGet s.plugins name with
  | none => s
  | some e =>
    let s1 : PMState :=
      if e.cfg.enabled then { s with live := stopLive s.live e.iid } else s
    if ctorOk then
      let iid := s1.nextIid
      let s2 : PMState :=
        { s1 with plugins := mapSet s1.plugins name ⟨e.classId, iid, newCfg⟩,
                  nextIid := iid + 1 }
      if newCfg.enabled && startOk then { s2 with live := s2.live ++ [(name, iid)] }
      else s2
    else s1

/-- The operations the plugin manager is driven by. -/
inductive POp where
  | load (name : String) (classId : Nat) (cfg : PCfg) (ctorOk startOk : Bool)
  | update (name : String) (cfg : PCfg) (ctorOk startOk : Bool)
deriving DecidableEq, Repr

def step (s : PMState) : POp → PMState
  | .load name classId cfg ctorOk startOk => loadPlugin s name classId cfg ctorOk startOk
  | .update name cfg ctorOk startOk => updatePluginConfig s name cfg ctorOk startOk

def run (s : PMState) (ops : List POp) : PMState := ops.foldl step s

/-- The instances currently live (started and not yet stopped) for `name`. -/
def liveFor (s : PMState) (name : String) : List Nat :=
  (s.live.filter (fun e => e.1 == name)).map (fun e => e.2)

/-! ### Plugin discovery and precedence (`main.cjs`) -/

/-- `PLUGIN_EXTENSIONS` from `main.cjs` — used only to *recognise* plugin
files, never to rank them. -/
def PLUGIN_EXTENSIONS : List String := [".js", ".cjs", ".mjs", ".ts", ".cts", ".mts"]

/-- A plugin file, split as `path.basename`/`path.extname` split it. -/
structure PFile where
  base : String
  ext : String
deriving DecidableEq, Repr

/-- `isValidPluginFile` from `main.cjs`. -/
def isValidPluginFile (f : PFile) : Bool := PLUGIN_EXTENSIONS.contains f.ext

/-- `getPluginName` from `main.cjs`:
`path.basename(filePath, path.extname(filePath))`. -/
def getPluginName (f : PFile) : String := f.base

/-- `scanPluginDir` from `main.cjs`: the files of the directory listing (in
listing order) whose extension is supported. -/
def scanPluginDir (listing : List PFile) : List PFile :=
  listing.filter isValidPluginFile

/-- The `taut:start-plugins` handler: scan the system (`plugins`) directory,
then the user (`user-plugins`) directory, concatenate, and
`bundleAndSendPlugin` every file in order.  Each successfully bundled file
(`bundleOk` models esbuild failures, which skip just that file) reaches the
renderer as a `loadPlugin(name, class, config.plugins[name] ?? disabled)`
call; `classOf` models the bundled class of a file. -/
def startPluginsOps (cfg : String → PCfg) (bundleOk : PFile → Bool)
    (classOf : PFile → Nat) (core user : List PFile) : List POp :=
  ((scanPluginDir core ++ scanPluginDir user).filter bundleOk).map
    (fun f => POp.load (getPluginName f) (classOf f) (cfg (getPluginName f)) true true)

/-- The file whose plugin ends up active for `name` after `start-plugins`:
the *last* valid, successfully bundled file with that base name, in
system-listing-then-user-listing order (each later load replaces the earlier
instance of the same name). -/
def activeFile (bundleOk : PFile → Bool) (core user : List PFile)
    (name : String) : Option PFile :=
  (((scanPluginDir core ++ scanPluginDir user).filter bundleOk).filter
    (fun f => getPluginName f == name)).getLast?

/-! ### Helper lemmas for the plugin manager -/

theorem mapGet_cons_ne (e : String × Entry) (rest : List (String × Entry))
    (k2 : String) (h : (e.1 == k2) = false) :
    mapGet (e :: rest) k2 = mapGet rest k2 := by
  unfold mapGet
  rw [List.find?_cons_of_neg _ (by simp [h])]

theorem mapGet_cons_eq (e : String × Entry) (rest : List (String × Entry))
    (k2 : String) (h : (e.1 == k2) = true) :
    mapGet (e :: rest) k2 = some e.2 := by
  unfold mapGet
  rw [List.find?_cons_of_pos _ (by simp [h])]
  rfl

theorem mapGet_set_self (m : List (String × Entry)) (k : String) (v : Entry) :
    mapGet (mapSet m k v) k = some v := by
  induction m with
  | nil => rw [mapSet, mapGet_cons_eq _ _ _ (by simp)]
  | cons e rest ih =>
    cases he : e.1 == k with
    | true =>
      simp only [mapSet, he, if_true]
      rw [mapGet_cons_eq _ _ _ (by simp)]
    | false =>
      simp only [mapSet, he, Bool.false_eq_true, if_false]
      rw [mapGet_cons_ne _ _ _ he]
      exact ih

theorem mapGet_set_ne (m : List (String × Entry)) (k k2 : String) (v : Entry)
    (h : (k == k2) = false) : mapGet (mapSet m k v) k2 = mapGet m k2 := by
  induction m with
  | nil =>
    rw [mapSet, mapGet_cons_ne _ _ _ h]
  | cons e rest ih =>
    cases he : e.1 == k with
    | true =>
      have hek : e.1 = k := by simpa using he
      simp only [mapSet, he, if_true]
      rw [mapGet_cons_ne _ _ _ h, mapGet_cons_ne _ _ _ (by simp [hek, ← h])]
    | false =>
      simp only [mapSet, he, Bool.false_eq_true, if_false]
      cases he2 : e.1 == k2 with
      | true =>
        rw [mapGet_cons_eq _ _ _ he2, mapGet_cons_eq _ _ _ he2]
      | false =>
        rw [mapGet_cons_ne _ _ _ he2, mapGet_cons_ne _ _ _ he2]
        exact ih

theorem liveFor_stopped (s : PMState) (iid : Nat) (name : String) :
    liveFor { s with live := stopLive s.live iid } name
      = (liveFor s name).filter (fun x => x != iid) := by
  show ((s.live.filter _).filter _).map _ = _
  unfold liveFor
  generalize s.live = l
  induction l with
  | nil => rfl
  | cons x xs ih =>
    cases h1 : x.1 == name <;> cases h2 : x.2 != iid <;>
      simp [stopLive, List.filter_cons, h1, h2] at ih ⊢ <;>
      simpa [h2] using ih

theorem liveFor_append_live (s : PMState) (P : List (String × Entry)) (nn : Nat)
    (nm n2 : String) (iid : Nat) :
    liveFor ⟨P, nn, s.live ++ [(nm, iid)]⟩ n2
      = liveFor s n2 ++ (if nm == n2 then [iid] else []) := by
  cases h : nm == n2 <;> simp [liveFor, List.filter_append, h]

theorem liveFor_plugins_irrelevant (s : PMState) (P : List (String × Entry))
    (nn : Nat) (name : String) :
    liveFor ⟨P, nn, s.live⟩ name = liveFor s name := rfl

/-- The single-live-instance invariant, as a predicate coupling the plugins
map with the ledger of started-and-not-stopped instances: for every name the
live instances are either none, or exactly the current map entry's instance,
started because its config was enabled. -/
def Inv (s : PMState) : Prop :=
  ∀ name,
    (∀ e, mapGet s.plugins name = some e →
      liveFor s name = [] ∨ (liveFor s name = [e.iid] ∧ e.cfg.enabled = true))
    ∧ (mapGet s.plugins name = none → liveFor s name = [])

theorem inv_init : Inv initState := by
  intro name
  constructor
  · intro e he
    simp [mapGet, initState] at he
  · intro _
    rfl

theorem inv_liveFor_len (s : PMState) (hs : Inv s) (name : String) :
    (liveFor s name).length ≤ 1 := by
  rcases h : mapGet s.plugins name with _ | e
  · rw [(hs name).2 h]
    simp
  · rcases (hs name).1 e h with h1 | ⟨h1, _⟩ <;> rw [h1] <;> simp

theorem inv_stopped (s : PMState) (hs : Inv s) (iid : Nat) :
    Inv { s with live := stopLive s.live iid } := by
  intro n
  constructor
  · intro e he
    rw [liveFor_stopped]
    rcases (hs n).1 e he with h1 | ⟨h1, h2⟩
    · left
      rw [h1]
      rfl
    · rw [h1]
      cases hne : e.iid != iid with
      | true =>
        right
        exact ⟨by simp [List.filter_cons, hne], h2⟩
      | false =>
        left
        simp [List.filter_cons, hne]
  · intro he
    rw [liveFor_stopped, (hs n).2 he]
    rfl

theorem liveFor_stop_self (s : PMState) (hs : Inv s) (name : String) (e : Entry)
    (he : mapGet s.plugins name = some e) :
    liveFor { s with live := stopLive s.live e.iid } name = [] := by
  rw [liveFor_stopped]
  rcases (hs name).1 e he with h1 | ⟨h1, _⟩ <;> rw [h1] <;>
    simp [List.filter_cons]

theorem liveFor_empty_of_not_enabled (s : PMState) (hs : Inv s) (name : String)
    (h : ∀ e, mapGet s.plugins name = some e → e.cfg.enabled = false) :
    liveFor s name = [] := by
  rcases hm : mapGet s.plugins name with _ | e
  · exact (hs name).2 hm
  · rcases (hs name).1 e hm with h1 | ⟨_, h2⟩
    · exact h1
    · rw [h e hm] at h2
      cases h2

/-- The state after storing and possibly starting a freshly constructed
instance. -/
def installed (s : PMState) (name : String) (ent : Entry) (started : Bool) :
    PMState :=
  { plugins := mapSet s.plugins name ent, nextIid := ent.iid + 1,
    live := s.live ++ (if started then [(name, ent.iid)] else []) }

theorem inv_installed (s : PMState) (name : String) (ent : Entry)
    (started : Bool) (hs : Inv s) (hempty : liveFor s name = [])
    (hen : started = true → ent.cfg.enabled = true) :
    Inv (installed s name ent started) := by
  have hlive : ∀ n, liveFor (installed s name ent started) n
      = liveFor s n ++ (if started && (name == n) then [ent.iid] else []) := by
    intro n
    cases hst : started <;> cases hnm : name == n <;>
      simp [installed, liveFor, List.filter_append, hst, hnm]
  intro n
  cases hnm : name == n with
  | true =>
    have hnm' : name = n := by simpa using hnm
    constructor
    · intro e he
      rw [show (installed s name ent started).plugins = mapSet s.plugins name ent
          from rfl, hnm', mapGet_set_self] at he
      injection he with he2
      subst he2
      rw [hlive n, ← hnm', hempty]
      cases hst : started with
      | true =>
        right
        exact ⟨by simp [hnm, hst, hnm'], hen hst⟩
      | false =>
        left
        simp [hst]
    · intro he
      rw [show (installed s name ent started).plugins = mapSet s.plugins name ent
          from rfl, hnm', mapGet_set_self] at he
      cases he
  | false =>
    have hmg : mapGet (installed s name ent started).plugins n = mapGet s.plugins n :=
      mapGet_set_ne _ _ _ _ hnm
    have hl : liveFor (installed s name ent started) n = liveFor s n := by
      rw [hlive n]
      simp [hnm]
    constructor
    · intro e he
      rw [hmg] at he
      rw [hl]
      exact (hs n).1 e he
    · intro he
      rw [hmg] at he
      rw [hl]
      exact (hs n).2 he

/-- The stop-the-existing-instance prelude shared by `loadPlugin` and
`updatePluginConfig`. -/
def stopExisting (s : PMState) (name : String) : PMState :=
  match mapGet s.plugins name with
  | some e => if e.cfg.enabled then { s with live := stopLive s.live e.iid } else s
  | none => s

theorem inv_stopExisting (s : PMState) (hs : Inv s) (name : String) :
    Inv (stopExisting s name) := by
  unfold stopExisting
  split
  next e heq =>
    split
    next => exact inv_stopped s hs e.iid
    next => exact hs
  next => exact hs

theorem liveFor_stopExisting_self (s : PMState) (hs : Inv s) (name : String) :
    liveFor (stopExisting s name) name = [] := by
  unfold stopExisting
  split
  next e heq =>
    split
    next => exact liveFor_stop_self s hs name e heq
    next hen =>
      have hen2 : e.cfg.enabled = false := by simpa using hen
      exact liveFor_empty_of_not_enabled s hs name
        (fun e2 he2 => by rw [heq] at he2; injection he2 with h3; rw [← h3]; exact hen2)
  next heq => exact (hs name).2 heq

/-- `loadPlugin` decomposed into stop-then-install form. -/
theorem loadPlugin_eq (s : PMState) (name : String) (classId : Nat) (cfg : PCfg)
    (cOk sOk : Bool) :
    loadPlugin s name classId cfg cOk sOk
      = (if cOk then
           installed (stopExisting s name) name
             ⟨classId, (stopExisting s name).nextIid, cfg⟩ (cfg.enabled && sOk)
         else stopExisting s name) := by
  rcases hm : mapGet s.plugins name with _ | e
  · cases hcs : cfg.enabled && sOk <;>
      simp [loadPlugin, stopExisting, installed, hm, hcs]
  · cases hen : e.cfg.enabled <;> cases hcs : cfg.enabled && sOk <;>
      simp [loadPlugin, stopExisting, installed, hm, hen, hcs]

/-- `updatePluginConfig` decomposed into stop-then-install form. -/
theorem updatePluginConfig_eq (s : PMState) (name : String) (newCfg : PCfg)
    (cOk sOk : Bool) :
    updatePluginConfig s name newCfg cOk sOk
      = (match mapGet s.plugins name with
         | none => s
         | some e =>
           if cOk then
             installed (stopExisting s name) name
               ⟨e.classId, (stopExisting s name).nextIid, newCfg⟩
               (newCfg.enabled && sOk)
           else stopExisting s name) := by
  rcases hm : mapGet s.plugins name with _ | e
  · simp [updatePluginConfig, hm]
  · cases hen : e.cfg.enabled <;> cases hcs : newCfg.enabled && sOk <;>
      simp [updatePluginConfig, stopExisting, installed, hm, hen, hcs]

theorem started_enabled {a b : Bool} (hst : (a && b) = true) : a = true := by
  simp only [Bool.and_eq_true] at hst
  exact hst.1

theorem inv_load (s : PMState) (hs : Inv s) (name : String) (classId : Nat)
    (cfg : PCfg) (cOk sOk : Bool) :
    Inv (loadPlugin s name classId cfg cOk sOk) := by
  rw [loadPlugin_eq]
  cases cOk with
  | true =>
    rw [if_pos rfl]
    exact inv_installed _ name _ _ (inv_stopExisting s hs name)
      (liveFor_stopExisting_self s hs name) (fun hst => started_enabled hst)
  | false =>
    rw [if_neg (by simp)]
    exact inv_stopExisting s hs name

theorem inv_update (s : PMState) (hs : Inv s) (name : String) (newCfg : PCfg)
    (cOk sOk : Bool) :
    Inv (updatePluginConfig s name newCfg cOk sOk) := by
  rw [updatePluginConfig_eq]
  split
  next => exact hs
  next e heq =>
    cases cOk with
    | true =>
      rw [if_pos rfl]
      exact inv_installed _ name _ _ (inv_stopExisting s hs name)
        (liveFor_stopExisting_self s hs name) (fun hst => started_enabled hst)
    | false =>
      rw [if_neg (by simp)]
      exact inv_stopExisting s hs name

theorem inv_run (ops : List POp) : ∀ s : PMState, Inv s → Inv (run s ops) := by
  induction ops with
  | nil => intro s hs; exact hs
  | cons op rest ih =>
    intro s hs
    have hstep : Inv (step s op) := by
      cases op with
      | load name classId cfg cOk sOk => exact inv_load s hs name classId cfg cOk sOk
      | update name cfg cOk sOk => exact inv_update s hs name cfg cOk sOk
    exact ih (step s op) hstep

/-! ### C9 -/

/-- **C9.**  Single-live-instance invariant: starting from the initial
manager state, after any sequence of `loadPlugin` / `updatePluginConfig`
operations — including ones whose constructor or `start` throws — at most one
started-and-not-yet-stopped instance exists per plugin name.  (Within each
operation, the existing enabled instance is stopped, with exceptions caught,
before the new instance is constructed and started — that ordering is the
structure of `loadPlugin`/`updatePluginConfig` in the model.) -/
theorem taut_C9_single_live_instance (ops : List POp) (name : String) :
    (liveFor (run initState ops) name).length ≤ 1 :=
  inv_liveFor_len _ (inv_run ops initState inv_init) name

/-! ### C6 -/

theorem stopExisting_plugins (s : PMState) (name : String) :
    (stopExisting s name).plugins = s.plugins
    ∧ (stopExisting s name).nextIid = s.nextIid := by
  unfold stopExisting
  split
  next e heq => split <;> exact ⟨rfl, rfl⟩
  next => exact ⟨rfl, rfl⟩

theorem loadPlugin_plugins (s : PMState) (name : String) (classId : Nat)
    (cfg : PCfg) (sOk : Bool) :
    (loadPlugin s name classId cfg true sOk).plugins
      = mapSet s.plugins name ⟨classId, s.nextIid, cfg⟩ := by
  rw [loadPlugin_eq, if_pos rfl]
  show mapSet (stopExisting s name).plugins name
      ⟨classId, (stopExisting s name).nextIid, cfg⟩ = _
  rw [(stopExisting_plugins s name).1, (stopExisting_plugins s name).2]

theorem getLast?_cons_of_ne {α : Type} (x : α) (l : List α) (h : l ≠ []) :
    (x :: l).getLast? = l.getLast? := by
  cases l with
  | nil => exact absurd rfl h
  | cons y ys => rw [List.getLast?_cons_cons]

theorem getLast?_cons_some {α : Type} (x g : α) (l : List α)
    (h : l.getLast? = some g) : (x :: l).getLast? = some g := by
  cases l with
  | nil => cases h
  | cons y ys =>
    rw [List.getLast?_cons_cons]
    exact h

theorem getLast?_none_iff {α : Type} (l : List α) : l.getLast? = none ↔ l = [] := by
  cases l with
  | nil => simp
  | cons x xs =>
    constructor
    · intro h
      exfalso
      induction xs generalizing x with
      | nil => cases h
      | cons y ys ih =>
        rw [List.getLast?_cons_cons] at h
        exact ih y h
    · intro h
      simp at h

theorem getLast?_append_ne {α : Type} (l1 l2 : List α) (h : l2 ≠ []) :
    (l1 ++ l2).getLast? = l2.getLast? := by
  induction l1 with
  | nil => rfl
  | cons x xs ih =>
    rw [List.cons_append,
      getLast?_cons_of_ne x (xs ++ l2)
        (fun hc => h (List.append_eq_nil.mp hc).2)]
    exact ih

/-- Running the `start-plugins` load sequence: for each name, the plugins-map
entry afterwards carries the class and config of the *last* file with that
name in the sequence (each load overwrites the previous entry), or is
untouched when no file matches. -/
theorem run_loads (cfg : String → PCfg) (classOf : PFile → Nat)
    (gs : List PFile) :
    ∀ (s : PMState) (name : String),
    (mapGet (run s (gs.map (fun f => POp.load (getPluginName f) (classOf f)
        (cfg (getPluginName f)) true true))).plugins name).map
      (fun e => (e.classId, e.cfg))
      = ((gs.filter (fun f => getPluginName f == name)).getLast?).elim
          ((mapGet s.plugins name).map (fun e => (e.classId, e.cfg)))
          (fun f => some (classOf f, cfg (getPluginName f))) := by
  induction gs with
  | nil =>
    intro s name
    simp [run]
  | cons f rest ih =>
    intro s name
    have hstep : run s ((f :: rest).map (fun f2 => POp.load (getPluginName f2)
        (classOf f2) (cfg (getPluginName f2)) true true))
        = run (loadPlugin s (getPluginName f) (classOf f) (cfg (getPluginName f))
            true true)
          (rest.map (fun f2 => POp.load (getPluginName f2) (classOf f2)
            (cfg (getPluginName f2)) true true)) := rfl
    rw [hstep, ih]
    rcases htail : (rest.filter (fun f2 => getPluginName f2 == name)).getLast?
        with _ | g
    · have hrest : rest.filter (fun f2 => getPluginName f2 == name) = [] :=
        (getLast?_none_iff _).mp htail
      cases hf : getPluginName f == name with
      | true =>
        have hsingle : (f :: rest).filter (fun f2 => getPluginName f2 == name)
            = [f] := by
          simp [List.filter_cons, hf, hrest]
        rw [hsingle]
        have hname : getPluginName f = name := by simpa using hf
        show (mapGet (loadPlugin s (getPluginName f) (classOf f)
            (cfg (getPluginName f)) true true).plugins name).map
            (fun e => (e.classId, e.cfg)) = _
        rw [loadPlugin_plugins, hname, mapGet_set_self]
        simp [← hname]
      | false =>
        have hnil : (f :: rest).filter (fun f2 => getPluginName f2 == name)
            = [] := by
          simp [List.filter_cons, hf, hrest]
        rw [hnil]
        show (mapGet (loadPlugin s (getPluginName f) (classOf f)
            (cfg (getPluginName f)) true true).plugins name).map
            (fun e => (e.classId, e.cfg)) = _
        rw [loadPlugin_plugins, mapGet_set_ne _ _ _ _ hf]
        simp
    · have h1 : ((f :: rest).filter (fun f2 => getPluginName f2 == name)).getLast?
          = some g := by
        cases hf : getPluginName f == name with
        | true =>
          rw [List.filter_cons_of_pos (by simp [hf])]
          exact getLast?_cons_some f g _ htail
        | false =>
          rw [List.filter_cons_of_neg (by simp [hf])]
          exact htail
      rw [h1]
      simp

/-- **C6 (amended).**  All valid plugin files of both directories are bundled
and sent in order — system directory listing first, then user directory
listing — and each load replaces the prior instance of the same name, so the
file left active for a name is the *last* valid, successfully bundled file
with that base name in that concatenated order.  Consequently a user-directory
file always beats the system directory (second conjunct); but *within* one
directory, directory-listing order decides, not a fixed extension-priority
order (see the counterexample). -/
theorem taut_C6_last_file_wins (cfg : String → PCfg) (bundleOk : PFile → Bool)
    (classOf : PFile → Nat) (core user : List PFile) (name : String)
    (huser : ((scanPluginDir user).filter bundleOk).filter
        (fun f => getPluginName f == name) ≠ []) :
    (mapGet (run initState (startPluginsOps cfg bundleOk classOf core user)).plugins
        name).map (fun e => (e.classId, e.cfg))
      = (activeFile bundleOk core user name).map
          (fun f => (classOf f, cfg (getPluginName f)))
    ∧ activeFile bundleOk core user name
      = (((scanPluginDir user).filter bundleOk).filter
          (fun f => getPluginName f == name)).getLast? := by
  constructor
  · have h := run_loads cfg classOf
      ((scanPluginDir core ++ scanPluginDir user).filter bundleOk) initState name
    rw [show startPluginsOps cfg bundleOk classOf core user
        = ((scanPluginDir core ++ scanPluginDir user).filter bundleOk).map
            (fun f => POp.load (getPluginName f) (classOf f)
              (cfg (getPluginName f)) true true) from rfl]
    rw [h]
    unfold activeFile
    rcases hl : ((((scanPluginDir core ++ scanPluginDir user)).filter
        bundleOk).filter (fun f => getPluginName f == name)).getLast? with _ | g
    · simp [hl, initState, mapGet]
    · simp [hl]
  · unfold activeFile
    rw [List.filter_append, List.filter_append]
    exact getLast?_append_ne _ _ huser

def c6Cfg : String → PCfg := fun _ => ⟨true⟩

def c6BundleOk : PFile → Bool := fun _ => true

def c6ClassOf : PFile → Nat := fun f => if f.ext == ".ts" then 0 else 1

def fooTs : PFile := ⟨"foo", ".ts"⟩

def fooJs : PFile := ⟨"foo", ".js"⟩

/-- Witness for `taut_C6_last_file_wins`: `foo.ts` in the system directory,
`foo.js` in the user directory — the user file is the active one. -/
theorem taut_C6_witness :
    (mapGet (run initState (startPluginsOps c6Cfg c6BundleOk c6ClassOf
        [fooTs] [fooJs])).plugins "foo").map (fun e => (e.classId, e.cfg))
      = (activeFile c6BundleOk [fooTs] [fooJs] "foo").map
          (fun f => (c6ClassOf f, c6Cfg (getPluginName f)))
    ∧ activeFile c6BundleOk [fooTs] [fooJs] "foo"
      = (((scanPluginDir [fooJs]).filter c6BundleOk).filter
          (fun f => getPluginName f == "foo")).getLast? :=
  taut_C6_last_file_wins c6Cfg c6BundleOk c6ClassOf [fooTs] [fooJs] "foo"
    (by decide)

/-- **C6 counterexample.**  Within one directory the winner among same-named
files is decided by the directory-listing order, not by a fixed
extension-priority order: the same two files (`foo.js`, `foo.ts`, a
permutation — same file set) in the single (system) directory yield
*different* active files under the two listing orders, so no order on
extensions — indeed no function of the file set at all — determines the
active file.  (`PLUGIN_EXTENSIONS` in the source is used only to recognise
plugin files, never to rank them.) -/
theorem taut_C6_cx :
    ([fooJs, fooTs] : List PFile).Perm [fooTs, fooJs]
    ∧ activeFile (fun _ => true) [fooJs, fooTs] [] "foo"
        ≠ activeFile (fun _ => true) [fooTs, fooJs] [] "foo" := by
  constructor
  · decide
  · decide

end Pl

namespace Cfg

/-!
Model of `deepEqual` and the config-change diffing (`watchConfig`) from
`src/core/main/main.cjs`.  Configs are JSON-shaped values; `nan` represents
the JS `NaN` number, which the source's `Number.isNaN` branch treats as equal
to itself.
-/

inductive Json where
  | null
  | nan
  | num (n : Int)
  | bool (b : Bool)
  | str (s : String)
  | arr (elems : List Json)
  | obj (fields : List (String × Json))
deriving Repr

/-- One unfolding layer of `deepEqual` from `main.cjs`, with the recursive
calls abstracted into `rec`:

* `left === right` is value equality on primitives (`null === null`
  included); on objects it merely short-circuits a structural comparison
  that would succeed anyway, so it needs no separate representation in a
  structural model;
* `Number.isNaN(left) && Number.isNaN(right)` makes `NaN` equal to itself;
* `left == null || right == null` fails;
* a `typeof` (or array-vs-object) mismatch fails;
* arrays compare by length and then index by index;
* objects compare by checking every own key of the left against the right
  (`hasOwnProperty` + recursive value comparison) while counting, and then
  requiring the right to have exactly the counted number of keys. -/
def deepEqualCore (rec : Json → Json → Bool) : Json → Json → Bool
  | .nan, .nan => true
  | .null, .null => true
  | .null, _ => false
  | _, .null => false
  | .num a, .num b => a == b
  | .bool a, .bool b => a == b
  | .str a, .str b => a == b
  | .arr xs, .arr ys =>
      xs.length == ys.length && (xs.zip ys).all (fun p => rec p.1 p.2)
  | .obj fs, .obj gs =>
      (fs.all (fun kv =>
        match gs.find? (fun e => e.1 == kv.1) with
        | some kw => rec kv.2 kw.2
        | none => false)) && gs.length == fs.length
  | _, _ => false

/-- `deepEqual` from `main.cjs`, fuel-indexed (any fuel exceeding the nesting
depth of the compared values computes the source's answer). -/
def deepEqual : Nat → Json → Json → Bool
  | 0, _, _ => false
  | fuel + 1, l, r => deepEqualCore (deepEqual fuel) l r

/-- The default `watchConfig` substitutes for a plugin name missing from a
config: `{ enabled: false }`. -/
def defaultPluginConfig : Json := .obj [("enabled", .bool false)]

/-- `oldPluginConfigs[name] || { enabled: false }`. -/
def getOrDefault (m : List (String × Json)) (k : String) : Json :=
  ((m.find? (fun e => e.1 == k)).map (fun e => e.2)).getD defaultPluginConfig

/-- `new Set([...Object.keys(old), ...Object.keys(new)])`, in insertion
order. -/
def allPluginNames (oldC newC : List (String × Json)) : List String :=
  firstDedup (oldC.map (fun e => e.1) ++ newC.map (fun e => e.1))

/-- The `taut:config-changed` pushes fired by one `watchFile` callback of
`watchConfig` (with the browser window present): one `(name, newConfig)` per
plugin name in either config whose config is not `deepEqual` to its previous
value. -/
def configChangedEvents (fuel : Nat) (oldC newC : List (String × Json)) :
    List (String × Json) :=
  (allPluginNames oldC newC).filterMap fun n =>
    if deepEqual fuel (getOrDefault oldC n) (getOrDefault newC n) then none
    else some (n, getOrDefault newC n)

/-! ### Helper lemmas -/

theorem firstDedup_go_mem {α : Type} [DecidableEq α] (l : List α) :
    ∀ (acc : List α) (x : α),
    x ∈ l.foldl (fun acc x => if x ∈ acc then acc else acc ++ [x]) acc
      ↔ x ∈ acc ∨ x ∈ l := by
  induction l with
  | nil =>
    intro acc x
    simp
  | cons y ys ih =>
    intro acc x
    rw [List.foldl_cons]
    by_cases hy : y ∈ acc
    · rw [if_pos hy, ih]
      simp only [List.mem_cons]
      constructor
      · rintro (h | h)
        · exact Or.inl h
        · exact Or.inr (Or.inr h)
      · rintro (h | rfl | h)
        · exact Or.inl h
        · exact Or.inl hy
        · exact Or.inr h
    · rw [if_neg hy, ih]
      simp [List.mem_append, or_assoc]

theorem firstDedup_mem {α : Type} [DecidableEq α] (l : List α) (x : α) :
    x ∈ firstDedup l ↔ x ∈ l := by
  rw [firstDedup, firstDedup_go_mem]
  simp

theorem firstDedup_go_nodup {α : Type} [DecidableEq α] (l : List α) :
    ∀ acc : List α, acc.Nodup →
    (l.foldl (fun acc x => if x ∈ acc then acc else acc ++ [x]) acc).Nodup := by
  induction l with
  | nil =>
    intro acc h
    exact h
  | cons y ys ih =>
    intro acc hacc
    rw [List.foldl_cons]
    by_cases hy : y ∈ acc
    · rw [if_pos hy]
      exact ih acc hacc
    · rw [if_neg hy]
      apply ih
      simp [List.nodup_append, hacc, hy]

theorem firstDedup_nodup {α : Type} [DecidableEq α] (l : List α) :
    (firstDedup l).Nodup :=
  firstDedup_go_nodup l [] List.nodup_nil

theorem filterMap_eq_singleton {α β : Type} (l : List α) (f : α → Option β)
    (x : α) (y : β) (hnd : l.Nodup) (hx : x ∈ l) (hfx : f x = some y)
    (hother : ∀ a ∈ l, a ≠ x → f a = none) :
    l.filterMap f = [y] := by
  induction l with
  | nil => cases hx
  | cons a l ih =>
    by_cases hax : a = x
    · subst hax
      have hrest : l.filterMap f = [] := by
        apply List.filterMap_eq_nil_iff.mpr
        intro b hb
        have hbne : b ≠ a := by
          rintro rfl
          exact (List.nodup_cons.mp hnd).1 hb
        exact hother b (List.mem_cons.mpr (Or.inr hb)) hbne
      rw [List.filterMap_cons_some hfx, hrest]
    · have hx2 : x ∈ l := by
        rcases List.mem_cons.mp hx with h | h
        · exact absurd h.symm hax
        · exact h
      have hfa : f a = none := hother a (List.mem_cons.mpr (Or.inl rfl)) hax
      rw [List.filterMap_cons_none hfa]
      exact ih (List.nodup_cons.mp hnd).2 hx2
        (fun b hb hbne => hother b (List.mem_cons.mpr (Or.inr hb)) hbne)

/-! ### C7 -/

/-- **C7.**  Config-change diffing: when only plugin `X`'s config differs
under `deepEqual` (every other name in either config compares equal, with the
`{enabled: false}` default substituted for missing names), the
`watchConfig` callback fires exactly one `config-changed` event — for `X`,
carrying `X`'s new config — and none for any other plugin. -/
theorem taut_C7_config_diff (fuel : Nat) (oldC newC : List (String × Json))
    (X : String)
    (hmem : X ∈ allPluginNames oldC newC)
    (hX : deepEqual fuel (getOrDefault oldC X) (getOrDefault newC X) = false)
    (hOthers : ∀ n, n ≠ X →
      deepEqual fuel (getOrDefault oldC n) (getOrDefault newC n) = true) :
    configChangedEvents fuel oldC newC = [(X, getOrDefault newC X)] := by
  apply filterMap_eq_singleton _ _ X (X, getOrDefault newC X)
    (firstDedup_nodup _) hmem
  · rw [if_neg (by simp [hX])]
  · intro n hn hne
    rw [if_pos (by simp [hOthers n hne])]

def c7Old : List (String × Json) :=
  [("X", .obj [("enabled", .bool true)]), ("Y", .obj [("enabled", .bool true)])]

def c7New : List (String × Json) :=
  [("X", .obj [("enabled", .bool false)]), ("Y", .obj [("enabled", .bool true)])]

/-- Witness for `taut_C7_config_diff`: disabling plugin `"X"` while `"Y"` is
unchanged fires exactly the one event `("X", X's new config)`. -/
theorem taut_C7_witness :
    configChangedEvents 3 c7Old c7New = [("X", getOrDefault c7New "X")] := by
  apply taut_C7_config_diff 3 c7Old c7New "X"
  · decide
  · decide
  · intro n hn
    have hbX : ("X" == n) = false := by
      rw [beq_eq_false_iff_ne]
      exact fun hc => hn hc.symm
    by_cases hY : n = "Y"
    · rw [hY]
      decide
    · have hbY : ("Y" == n) = false := by
        rw [beq_eq_false_iff_ne]
        exact fun hc => hY hc.symm
      show deepEqual 3 (getOrDefault c7Old n) (getOrDefault c7New n) = true
      rw [show getOrDefault c7Old n = defaultPluginConfig by
          simp [getOrDefault, c7Old, List.find?, hbX, hbY],
        show getOrDefault c7New n = defaultPluginConfig by
          simp [getOrDefault, c7New, List.find?, hbX, hbY]]
      decide

end Cfg

end Taut
